import Mathlib

/-!
Verification of the scene-graph surgery core of `openmw_pincushion_generator`.

The Rust source (src/main.rs) mutates a decoded NIF scene graph: it applies
per-weapon-category transforms to the root node's direct children, normalizes
the graph to a single root `NiNode` (inserting a synthetic parent when needed),
and splices an "NC" string-extra-data marker at the head of the root's
extra-data chain.

The Link Store (`NiStream` from the external `tes3` crate) is modelled as an
arena of objects indexed by natural-number keys plus a list of root keys.
Floating-point scalars are modelled as rationals; the transforms only add and
multiply, so the algebraic content of the claims is preserved.
-/

namespace Pincushion

/-- Three-component translation vector (models the NIF `Vec3` with rational
coordinates). -/
structure Vec3 where
  x : ℚ
  y : ℚ
  z : ℚ
deriving DecidableEq, Repr

/-- Rotation matrix, stored by rows (models the NIF 3x3 rotation). -/
structure Matrix3 where
  r0 : Vec3
  r1 : Vec3
  r2 : Vec3
deriving DecidableEq, Repr

def Vec3.zero : Vec3 := { x := 0, y := 0, z := 0 }

def Matrix3.identity : Matrix3 :=
  { r0 := { x := 1, y := 0, z := 0 }
    r1 := { x := 0, y := 1, z := 0 }
    r2 := { x := 0, y := 0, z := 1 } }

/-- Object-net capability data: a name and an optional link to the first
extra-data record of the object's intrusive metadata chain. -/
structure NiObjectNET where
  name : String
  extra_data : Option Nat
deriving DecidableEq, Repr

/-- Av-object capability data: object-net data plus a local transform
(translation, rotation, uniform scale). -/
structure NiAVObject where
  net : NiObjectNET
  translation : Vec3
  rotation : Matrix3
  scale : ℚ
deriving DecidableEq, Repr

/-- Grouping node: an av-object owning an ordered list of child links. -/
structure NiNode where
  base : NiAVObject
  children : List Nat
deriving DecidableEq, Repr

/-- String metadata record: a value and an optional link to the next record
in the owner's singly-linked extra-data chain. -/
structure NiStringExtraData where
  value : String
  next : Option Nat
deriving DecidableEq, Repr

def NiObjectNET.default : NiObjectNET := { name := "", extra_data := none }

def NiAVObject.default : NiAVObject :=
  { net := NiObjectNET.default, translation := Vec3.zero
    rotation := Matrix3.identity, scale := 1 }

def NiNode.default : NiNode := { base := NiAVObject.default, children := [] }

/-- Polymorphic scene-graph object (the `NiType` tagged union of the codec):
nodes and generic av-objects carry both capabilities, string extra data
carries neither, `other` stands for any remaining capability-free variant. -/
inductive NiType where
  | node (n : NiNode)
  | stringExtraData (e : NiStringExtraData)
  | avObject (a : NiAVObject)
  | other
deriving DecidableEq, Repr

/-- The link store: an arena of objects addressed by index, plus the ordered
sequence of root links (`NiStream` of the codec). -/
structure NiStream where
  objects : List NiType
  roots : List Nat
deriving DecidableEq, Repr

/-- View an object through the av-object capability, when it has one. -/
def NiType.avView : NiType → Option NiAVObject
  | NiType.node n => some n.base
  | NiType.avObject a => some a
  | _ => none

/-- Write back through the av-object capability, preserving the variant and
any node children. -/
def NiType.withAV : NiType → NiAVObject → NiType
  | NiType.node n, a => NiType.node { n with base := a }
  | NiType.avObject _, a => NiType.avObject a
  | o, _ => o

/-- View an object through the object-net capability, when it has one. -/
def NiType.netView : NiType → Option NiObjectNET
  | NiType.node n => some n.base.net
  | NiType.avObject a => some a.net
  | _ => none

/-- Overwrite the extra-data head link through the object-net capability. -/
def NiType.withNetExtra : NiType → Option Nat → NiType
  | NiType.node n, e =>
      NiType.node { n with base := { n.base with net := { n.base.net with extra_data := e } } }
  | NiType.avObject a, e =>
      NiType.avObject { a with net := { a.net with extra_data := e } }
  | o, _ => o

/-- Arena insertion: append the object and return the fresh link (its index). -/
def NiStream.insert (s : NiStream) (o : NiType) : NiStream × Nat :=
  ({ s with objects := s.objects ++ [o] }, s.objects.length)

/-- Apply `f` to the object stored at key `k` (no-op on a dangling key). -/
def NiStream.updateObj (s : NiStream) (k : Nat) (f : NiType → NiType) : NiStream :=
  match s.objects[k]? with
  | some o => { s with objects := s.objects.set k (f o) }
  | none => s

/-- Typed lookup `stream.get_mut::<NiAVObject>(k)`: resolves only when the
object at `k` exists and has the av-object capability. -/
def NiStream.getAV (s : NiStream) (k : Nat) : Option NiAVObject :=
  (s.objects[k]?).bind NiType.avView

/-- Write an av-object view back into the arena at key `k`. -/
def NiStream.setAV (s : NiStream) (k : Nat) (a : NiAVObject) : NiStream :=
  s.updateObj k (fun o => o.withAV a)

/-- Typed lookup `stream.get_as_mut::<NiObjectNET>(k)`. -/
def NiStream.getNET (s : NiStream) (k : Nat) : Option NiObjectNET :=
  (s.objects[k]?).bind NiType.netView

/-- Command-line configuration consumed by the transforms. -/
structure Args where
  arrow_offset : ℚ
  arrow_scale : ℚ
  bolt_offset : ℚ
  bolt_scale : ℚ
deriving DecidableEq, Repr

/-- Weapon categories reaching the per-child dispatch; `otherType` stands for
the wildcard arm of the source's match. -/
inductive WeaponType where
  | marksmanThrown
  | arrow
  | bolt
  | otherType
deriving DecidableEq, Repr

/-- For arrows we offset translation and reduce scale (src/main.rs lines 13-16). -/
def process_arrow (object : NiAVObject) (args : Args) : NiAVObject :=
  { object with
      translation := { object.translation with y := object.translation.y + args.arrow_offset }
      scale := object.scale * args.arrow_scale }

/-- For bolts we shift them forward and rescale (src/main.rs lines 19-22). -/
def process_bolt (object : NiAVObject) (args : Args) : NiAVObject :=
  { object with
      translation := { object.translation with y := object.translation.y + args.bolt_offset }
      scale := object.scale * args.bolt_scale }

/-- For throwables we flip them by a -1 scale factor (src/main.rs lines 25-27). -/
def process_throwable (object : NiAVObject) : NiAVObject :=
  { object with scale := object.scale * (-1) }

/-- Insert a new parent node above the previous roots (src/main.rs lines 34-48):
all current roots become children of a fresh default node, which is inserted
and becomes the sole root. Returns the updated stream and the fresh link. -/
def insert_root_parent (s : NiStream) : NiStream × Nat :=
  let node : NiNode := { NiNode.default with children := s.roots }
  let p := s.insert (NiType.node node)
  ({ p.1 with roots := [p.2] }, p.2)

/-- Root normalization step of the driver (src/main.rs lines 122-125): if the
object under the first root link is already a node, keep it; otherwise wrap
everything under a synthetic parent. -/
def normalize_root (s : NiStream) : NiStream × Nat :=
  match s.objects[s.roots.headI]? with
  | some (NiType.node _) => (s, s.roots.headI)
  | _ => insert_root_parent s

/-- Splice the "NC" marker at the head of the root's extra-data chain
(src/main.rs lines 50-69). `none` models the source's panics: indexing an
empty root list or the failed `unwrap` of the object-net downcast. -/
def insert_no_collision_tag (s : NiStream) : Option NiStream :=
  let ed : NiStringExtraData := { value := "NC", next := none }
  let p := s.insert (NiType.stringExtraData ed)
  let s1 := p.1
  let edLink := p.2
  match s1.roots[0]? with
  | none => none
  | some r0 =>
    match s1.getNET r0 with
    | none => none
    | some net =>
      let s2 := s1.updateObj r0 (fun o => o.withNetExtra (some edLink))
      match s2.objects[edLink]? with
      | some (NiType.stringExtraData e) =>
          some (s2.updateObj edLink
            (fun _ => NiType.stringExtraData { e with next := net.extra_data }))
      | _ => none

/-- Per-child dispatch on the weapon category (src/main.rs lines 131-142). -/
def applyTransform (wt : WeaponType) (args : Args) (object : NiAVObject) : NiAVObject :=
  match wt with
  | WeaponType.marksmanThrown => process_throwable object
  | WeaponType.arrow => process_arrow object args
  | WeaponType.bolt => process_bolt object args
  | WeaponType.otherType => object

/-- Body of the per-child loop (src/main.rs lines 127-143): a child link that
does not resolve to an av-object is skipped, otherwise the category transform
is applied in place. -/
def transformChild (args : Args) (wt : WeaponType) (s : NiStream) (c : Nat) : NiStream :=
  match s.getAV c with
  | none => s
  | some o => s.setAV c (applyTransform wt args o)

/-- The per-child loop over the snapshotted child list. -/
def transformChildren (args : Args) (wt : WeaponType) (cs : List Nat) (s : NiStream) : NiStream :=
  cs.foldl (transformChild args wt) s

/-- Errors surfaced by per-asset processing: a skipped asset with a bad root
count, or an unreachable stream panic (`unwrap` failure in the source). -/
inductive ProcError where
  | invalidRootCount
  | streamFault
deriving DecidableEq, Repr

/-- Per-asset pipeline of `process_plugin` (src/main.rs lines 117-145):
reject unless exactly one root, normalize the root, snapshot and transform
the root's children, then splice the marker. -/
def process_asset (args : Args) (wt : WeaponType) (s : NiStream) : Except ProcError NiStream :=
  if s.roots.length ≠ 1 then Except.error ProcError.invalidRootCount
  else
    let p := normalize_root s
    match p.1.objects[p.2]? with
    | some (NiType.node root) =>
        let s2 := transformChildren args wt root.children p.1
        match insert_no_collision_tag s2 with
        | some s3 => Except.ok s3
        | none => Except.error ProcError.streamFault
    | _ => Except.error ProcError.streamFault

/-- Driver loop over the deduplicated assets (src/main.rs lines 102-153):
an asset with a bad root count is skipped and processing continues; a stream
panic aborts the run (`none`); each success contributes one output. -/
def run_assets (args : Args) : List (WeaponType × NiStream) → Option (List NiStream)
  | [] => some []
  | (wt, s) :: rest =>
    match process_asset args wt s with
    | Except.ok s' => (run_assets args rest).map (fun out => s' :: out)
    | Except.error ProcError.invalidRootCount => run_assets args rest
    | Except.error ProcError.streamFault => none

/-- Extra-data chain of a store, as a relation: `Chain s head vs` holds when
following `next` links from `head` visits string records with values `vs`. -/
inductive Chain (s : NiStream) : Option Nat → List String → Prop where
  | nil : Chain s none []
  | cons {k : Nat} {e : NiStringExtraData} {vs : List String} :
      s.objects[k]? = some (NiType.stringExtraData e) →
      Chain s e.next vs →
      Chain s (some k) (e.value :: vs)

/-! ### Helper lemmas about the store operations -/

theorem insert_root_parent_eq (s : NiStream) :
    insert_root_parent s =
      ({ objects := s.objects ++ [NiType.node { NiNode.default with children := s.roots }]
         roots := [s.objects.length] }, s.objects.length) := rfl

theorem updateObj_roots (s : NiStream) (k : Nat) (f : NiType → NiType) :
    (s.updateObj k f).roots = s.roots := by
  unfold NiStream.updateObj
  split <;> rfl

theorem updateObj_objects_ne (s : NiStream) (k j : Nat) (f : NiType → NiType) (h : k ≠ j) :
    (s.updateObj k f).objects[j]? = s.objects[j]? := by
  unfold NiStream.updateObj
  split
  · exact List.getElem?_set_ne h
  · rfl

theorem updateObj_objects_self (s : NiStream) (k : Nat) (f : NiType → NiType) (o : NiType)
    (h : s.objects[k]? = some o) :
    (s.updateObj k f).objects[k]? = some (f o) := by
  unfold NiStream.updateObj
  rw [h]
  have hk : k < s.objects.length := (List.getElem?_eq_some_iff.mp h).1
  simp [List.getElem?_set, hk]

theorem transformChild_none (args : Args) (wt : WeaponType) (s : NiStream) (c : Nat)
    (h : s.getAV c = none) : transformChild args wt s c = s := by
  unfold transformChild
  rw [h]

theorem transformChild_some (args : Args) (wt : WeaponType) (s : NiStream) (c : Nat)
    (o : NiAVObject) (h : s.getAV c = some o) :
    transformChild args wt s c = s.setAV c (applyTransform wt args o) := by
  unfold transformChild
  rw [h]

theorem applyTransform_frame (wt : WeaponType) (args : Args) (a : NiAVObject) :
    (applyTransform wt args a).net = a.net ∧
    (applyTransform wt args a).translation.x = a.translation.x ∧
    (applyTransform wt args a).translation.z = a.translation.z ∧
    (applyTransform wt args a).rotation = a.rotation := by
  cases wt <;>
    simp [applyTransform, process_arrow, process_bolt, process_throwable]

/-! ### C5: the Thrown transform negates the scale -/

/-- C5: applying the Thrown-category transform multiplies the child's scale by
exactly -1 — the resulting scale is the negation of the input scale — and the
result does not depend on any configuration value. -/
theorem throwable_negates_scale (args : Args) (object : NiAVObject) :
    (applyTransform WeaponType.marksmanThrown args object).scale = -object.scale ∧
    ∀ args2 : Args,
      applyTransform WeaponType.marksmanThrown args2 object
        = applyTransform WeaponType.marksmanThrown args object := by
  constructor
  · simp [applyTransform, process_throwable]
  · intro args2
    rfl

/-! ### C4: the Bolt transform shifts translation and rescales -/

/-- C4 counterexample: with bolt_offset = 4 and bolt_scale = 2 the Bolt
transform changes the scale, contradicting the claim that the scale is left
unchanged. -/
theorem bolt_keeps_scale_counterexample :
    ((⟨0, 1, 4, 2⟩ : Args).bolt_offset = 4) ∧
    (process_bolt (⟨⟨"", none⟩, Vec3.zero, Matrix3.identity, 1⟩ : NiAVObject)
        (⟨0, 1, 4, 2⟩ : Args)).scale
      ≠ ((⟨⟨"", none⟩, Vec3.zero, Matrix3.identity, 1⟩ : NiAVObject)).scale := by
  constructor
  · rfl
  · norm_num [process_bolt]

/-- C4 (amended): for every av-object child and every configuration with
bolt_offset = 4, the Bolt transform shifts the translation by 4 along the
local y axis, leaves the other translation components unchanged, and
multiplies the scale by the configured bolt_scale. -/
theorem bolt_transform_offset4 (object : NiAVObject) (args : Args)
    (h : args.bolt_offset = 4) :
    (process_bolt object args).translation.y = object.translation.y + 4 ∧
    (process_bolt object args).translation.x = object.translation.x ∧
    (process_bolt object args).translation.z = object.translation.z ∧
    (process_bolt object args).scale = object.scale * args.bolt_scale := by
  simp [process_bolt, h]

/-- Witness for the amended C4 theorem at a concrete object and configuration. -/
theorem bolt_transform_offset4_witness :
    (process_bolt (⟨⟨"", none⟩, Vec3.zero, Matrix3.identity, 2⟩ : NiAVObject)
        (⟨0, 1, 4, 3⟩ : Args)).translation.y
      = (⟨⟨"", none⟩, Vec3.zero, Matrix3.identity, 2⟩ : NiAVObject).translation.y + 4 ∧
    (process_bolt (⟨⟨"", none⟩, Vec3.zero, Matrix3.identity, 2⟩ : NiAVObject)
        (⟨0, 1, 4, 3⟩ : Args)).translation.x
      = (⟨⟨"", none⟩, Vec3.zero, Matrix3.identity, 2⟩ : NiAVObject).translation.x ∧
    (process_bolt (⟨⟨"", none⟩, Vec3.zero, Matrix3.identity, 2⟩ : NiAVObject)
        (⟨0, 1, 4, 3⟩ : Args)).translation.z
      = (⟨⟨"", none⟩, Vec3.zero, Matrix3.identity, 2⟩ : NiAVObject).translation.z ∧
    (process_bolt (⟨⟨"", none⟩, Vec3.zero, Matrix3.identity, 2⟩ : NiAVObject)
        (⟨0, 1, 4, 3⟩ : Args)).scale
      = (⟨⟨"", none⟩, Vec3.zero, Matrix3.identity, 2⟩ : NiAVObject).scale
          * (⟨0, 1, 4, 3⟩ : Args).bolt_scale :=
  bolt_transform_offset4 ⟨⟨"", none⟩, Vec3.zero, Matrix3.identity, 2⟩ ⟨0, 1, 4, 3⟩ rfl

/-! ### C1, C2, C6: root normalization -/

/-- C1: for every store whose root sequence has exactly one entry, after root
normalization the root sequence again has exactly one entry and the sole root
link resolves to a Node. -/
theorem normalize_single_root (s : NiStream) (h : s.roots.length = 1) :
    ∃ r n, (normalize_root s).1.roots = [r] ∧
      (normalize_root s).1.objects[r]? = some (NiType.node n) := by
  obtain ⟨r0, hr⟩ : ∃ r0, s.roots = [r0] := List.length_eq_one.mp h
  unfold normalize_root
  split
  · next n heq =>
      refine ⟨r0, n, hr, ?_⟩
      rw [hr] at heq
      exact heq
  · rw [insert_root_parent_eq]
    exact ⟨s.objects.length, { NiNode.default with children := s.roots },
      rfl, List.getElem?_concat_length _ _⟩

/-- Witness for C1 at a concrete single-root store whose root is not a node. -/
theorem normalize_single_root_witness :
    ∃ r n, (normalize_root ⟨[NiType.other], [0]⟩).1.roots = [r] ∧
      (normalize_root ⟨[NiType.other], [0]⟩).1.objects[r]? = some (NiType.node n) :=
  normalize_single_root ⟨[NiType.other], [0]⟩ rfl

/-- C2: when the sole root is not a Node, normalization appends exactly one
new object to the store — a Node with the default identity transform whose
single child is the original root link — and replaces the root sequence with
exactly the new node's link. -/
theorem normalize_wraps (s : NiStream) (r0 : Nat)
    (hr : s.roots = [r0])
    (hnot : ∀ n : NiNode, s.objects[r0]? ≠ some (NiType.node n)) :
    (normalize_root s).1.objects
        = s.objects ++ [NiType.node { base := NiAVObject.default, children := [r0] }] ∧
    (normalize_root s).1.roots = [s.objects.length] ∧
    (normalize_root s).2 = s.objects.length := by
  unfold normalize_root
  split
  · next n heq =>
      rw [hr] at heq
      exact absurd heq (hnot n)
  · rw [insert_root_parent_eq, hr]
    exact ⟨rfl, rfl, rfl⟩

/-- Witness for C2 at a concrete store whose sole root is a capability-free
object. -/
theorem normalize_wraps_witness :
    (normalize_root ⟨[NiType.other], [0]⟩).1.objects
        = [NiType.other]
            ++ [NiType.node { base := NiAVObject.default, children := [0] }] ∧
    (normalize_root ⟨[NiType.other], [0]⟩).1.roots
        = [([NiType.other] : List NiType).length] ∧
    (normalize_root ⟨[NiType.other], [0]⟩).2 = ([NiType.other] : List NiType).length :=
  normalize_wraps ⟨[NiType.other], [0]⟩ 0 rfl (fun n h => by simp at h)

/-- C6: when the sole root already resolves to a Node, normalization returns
the store completely unchanged together with the original root link; in
particular no new object is inserted and the root sequence is untouched. -/
theorem normalize_fast_path (s : NiStream) (r0 : Nat) (n : NiNode)
    (hr : s.roots = [r0]) (hobj : s.objects[r0]? = some (NiType.node n)) :
    normalize_root s = (s, r0) := by
  unfold normalize_root
  rw [hr]
  simp only [List.headI]
  rw [hobj]

/-- Witness for C6 at a concrete store whose sole root is already a node. -/
theorem normalize_fast_path_witness :
    normalize_root ⟨[NiType.node NiNode.default], [0]⟩
      = (⟨[NiType.node NiNode.default], [0]⟩, 0) :=
  normalize_fast_path ⟨[NiType.node NiNode.default], [0]⟩ 0 NiNode.default rfl rfl

/-! ### C7: assets with a bad root count are skipped -/

/-- C7: an asset whose root sequence length is not exactly one is rejected
with InvalidRootCount — no mutated store is produced for it and no output is
contributed — and the driver's results are exactly those of the remaining
assets. -/
theorem invalid_root_count_skipped (args : Args) (wt : WeaponType) (s : NiStream)
    (rest : List (WeaponType × NiStream)) (h : s.roots.length ≠ 1) :
    process_asset args wt s = Except.error ProcError.invalidRootCount ∧
    run_assets args ((wt, s) :: rest) = run_assets args rest := by
  have h1 : process_asset args wt s = Except.error ProcError.invalidRootCount := by
    unfold process_asset
    rw [if_pos h]
  refine ⟨h1, ?_⟩
  conv_lhs => rw [run_assets]
  rw [h1]

/-- Witness for C7 at a concrete rootless store followed by an empty tail. -/
theorem invalid_root_count_skipped_witness :
    process_asset ⟨0, 1, 0, 1⟩ WeaponType.arrow ⟨[], []⟩
        = Except.error ProcError.invalidRootCount ∧
    run_assets ⟨0, 1, 0, 1⟩ ((WeaponType.arrow, (⟨[], []⟩ : NiStream)) :: [])
        = run_assets ⟨0, 1, 0, 1⟩ [] :=
  invalid_root_count_skipped ⟨0, 1, 0, 1⟩ WeaponType.arrow ⟨[], []⟩ [] (by decide)

/-! ### C8: unresolvable children are skipped silently -/

theorem transformChild_objects_of_getAV_none (args : Args) (wt : WeaponType)
    (s : NiStream) (c k : Nat) (h : s.getAV k = none) :
    (transformChild args wt s c).objects[k]? = s.objects[k]? := by
  cases hGA : s.getAV c with
  | none => rw [transformChild_none args wt s c hGA]
  | some o =>
      rw [transformChild_some args wt s c o hGA]
      by_cases hkc : c = k
      · subst hkc
        rw [hGA] at h
        exact absurd h (by simp)
      · exact updateObj_objects_ne _ _ _ _ hkc

theorem transformChild_getAV_none (args : Args) (wt : WeaponType)
    (s : NiStream) (c k : Nat) (h : s.getAV k = none) :
    (transformChild args wt s c).getAV k = none := by
  unfold NiStream.getAV
  rw [transformChild_objects_of_getAV_none args wt s c k h]
  exact h

/-- C8: a snapshotted child link that does not resolve to an av-object is
skipped without effect and without error: running the per-child loop on a
snapshot containing it gives exactly the run on the snapshot with it removed,
so every remaining child is still visited and transformed. -/
theorem unresolved_child_skipped (args : Args) (wt : WeaponType) (s : NiStream)
    (cs1 cs2 : List Nat) (c : Nat) (h : s.getAV c = none) :
    transformChildren args wt (cs1 ++ c :: cs2) s
      = transformChildren args wt (cs1 ++ cs2) s := by
  induction cs1 generalizing s with
  | nil =>
      unfold transformChildren
      simp only [List.nil_append, List.foldl_cons]
      rw [transformChild_none args wt s c h]
  | cons d ds ih =>
      unfold transformChildren at ih ⊢
      simp only [List.cons_append, List.foldl_cons]
      exact ih (transformChild args wt s d) (transformChild_getAV_none args wt s d c h)

/-- Witness for C8: the dangling child key 1 in the middle of a snapshot is
skipped, and the remaining children are processed as if it were absent. -/
theorem unresolved_child_skipped_witness :
    transformChildren ⟨0, 1, 0, 1⟩ WeaponType.arrow
        ([0] ++ 1 :: [0]) ⟨[NiType.avObject NiAVObject.default], [0]⟩
      = transformChildren ⟨0, 1, 0, 1⟩ WeaponType.arrow
        ([0] ++ [0]) ⟨[NiType.avObject NiAVObject.default], [0]⟩ :=
  unresolved_child_skipped ⟨0, 1, 0, 1⟩ WeaponType.arrow
    ⟨[NiType.avObject NiAVObject.default], [0]⟩ [0] [0] 1 rfl

/-! ### C10: the per-child transform touches only the y translation and scale -/

/-- Relation between an arena slot before and after a per-child transform:
the variant is preserved and every field other than the y translation
component and the scale — name, metadata link, the x and z translation
components, rotation, node children — is unchanged. -/
def FramePreserved : Option NiType → Option NiType → Prop
  | some (NiType.node n), o' =>
      ∃ n' : NiNode, o' = some (NiType.node n') ∧ n'.base.net = n.base.net ∧
        n'.base.translation.x = n.base.translation.x ∧
        n'.base.translation.z = n.base.translation.z ∧
        n'.base.rotation = n.base.rotation ∧ n'.children = n.children
  | some (NiType.avObject a), o' =>
      ∃ a' : NiAVObject, o' = some (NiType.avObject a') ∧ a'.net = a.net ∧
        a'.translation.x = a.translation.x ∧
        a'.translation.z = a.translation.z ∧ a'.rotation = a.rotation
  | o, o' => o' = o

theorem framePreserved_refl (o : Option NiType) : FramePreserved o o := by
  match o with
  | none => rfl
  | some (NiType.node n) => exact ⟨n, rfl, rfl, rfl, rfl, rfl, rfl⟩
  | some (NiType.avObject a) => exact ⟨a, rfl, rfl, rfl, rfl, rfl⟩
  | some (NiType.stringExtraData e) => rfl
  | some NiType.other => rfl

/-- C10: for every category, configuration, store and child key, the
per-child transform step leaves the root sequence unchanged and relates every
arena slot to its old value by FramePreserved: at most the y translation
component and the scale of the targeted av-object change, and every other
slot is untouched. -/
theorem transform_frame_effect (wt : WeaponType) (args : Args) (s : NiStream) (c k : Nat) :
    FramePreserved (s.objects[k]?) ((transformChild args wt s c).objects[k]?) ∧
    (transformChild args wt s c).roots = s.roots := by
  cases hGA : s.getAV c with
  | none =>
      rw [transformChild_none args wt s c hGA]
      exact ⟨framePreserved_refl _, rfl⟩
  | some o =>
      rw [transformChild_some args wt s c o hGA]
      obtain ⟨oc, hoc, hview⟩ := Option.bind_eq_some.mp hGA
      refine ⟨?_, updateObj_roots _ _ _⟩
      by_cases hkc : c = k
      · subst hkc
        have hself := updateObj_objects_self s c (fun x => x.withAV (applyTransform wt args o)) oc hoc
        rw [NiStream.setAV, hself, hoc]
        obtain ⟨h1, h2, h3, h4⟩ := applyTransform_frame wt args o
        match oc, hview with
        | NiType.node n, hview =>
            have ho : o = n.base := by
              simpa [NiType.avView] using hview.symm
            subst ho
            exact ⟨{ n with base := applyTransform wt args n.base },
              rfl, h1, h2, h3, h4, rfl⟩
        | NiType.avObject a, hview =>
            have ho : o = a := by
              simpa [NiType.avView] using hview.symm
            subst ho
            exact ⟨applyTransform wt args o, rfl, h1, h2, h3, h4⟩
      · rw [NiStream.setAV, updateObj_objects_ne _ _ _ _ hkc]
        exact framePreserved_refl _

/-! ### C3, C9: the extra-data splicer -/

theorem netView_withNetExtra (o : NiType) (net : NiObjectNET) (e : Option Nat)
    (h : o.netView = some net) :
    (o.withNetExtra e).netView = some { net with extra_data := e } := by
  match o, h with
  | NiType.node n, h =>
      have : net = n.base.net := by simpa [NiType.netView] using h.symm
      subst this
      rfl
  | NiType.avObject a, h =>
      have : net = a.net := by simpa [NiType.netView] using h.symm
      subst this
      rfl

/-- Characterization of the splicer under its success precondition: a root
link exists and resolves to an object-net-capable object. The result inserts
the "NC" record at the arena's end, points the root's extra-data head at it,
and points the new record's `next` at the previous head. -/
theorem insert_no_collision_tag_eq (s : NiStream) (r0 : Nat) (net : NiObjectNET)
    (hr0 : s.roots[0]? = some r0) (hnet : s.getNET r0 = some net) :
    insert_no_collision_tag s = some
      ((({ s with objects :=
            s.objects ++ [NiType.stringExtraData { value := "NC", next := none }] } :
              NiStream).updateObj
          r0 (fun o => o.withNetExtra (some s.objects.length))).updateObj
        s.objects.length
        (fun _ => NiType.stringExtraData { value := "NC", next := net.extra_data })) := by
  obtain ⟨o, ho, hov⟩ := Option.bind_eq_some.mp hnet
  have hlt : r0 < s.objects.length := (List.getElem?_eq_some_iff.mp ho).1
  have hne : r0 ≠ s.objects.length := Nat.ne_of_lt hlt
  have h1 : ({ s with objects :=
        s.objects ++ [NiType.stringExtraData { value := "NC", next := none }] } :
          NiStream).getNET r0 = some net := by
    unfold NiStream.getNET
    show ((s.objects ++ _)[r0]?).bind NiType.netView = some net
    rw [List.getElem?_append_left hlt]
    exact hnet
  have h2 : (({ s with objects :=
        s.objects ++ [NiType.stringExtraData { value := "NC", next := none }] } :
          NiStream).updateObj
        r0 (fun o => o.withNetExtra (some s.objects.length))).objects[s.objects.length]?
      = some (NiType.stringExtraData { value := "NC", next := none }) := by
    rw [updateObj_objects_ne _ _ _ _ hne]
    exact List.getElem?_concat_length _ _
  unfold insert_no_collision_tag NiStream.insert
  simp only
  rw [show ({ s with objects :=
        s.objects ++ [NiType.stringExtraData { value := "NC", next := none }] } :
          NiStream).roots[0]? = some r0 from hr0]
  simp only [h1, h2]

theorem chain_mono (s s' : NiStream)
    (h : ∀ (k : Nat) (e : NiStringExtraData),
          s.objects[k]? = some (NiType.stringExtraData e) →
          s'.objects[k]? = some (NiType.stringExtraData e))
    (hd : Option Nat) (vs : List String) (hc : Chain s hd vs) :
    Chain s' hd vs := by
  induction hc with
  | nil => exact Chain.nil
  | cons hk _ ih => exact Chain.cons (h _ _ hk) ih

/-- C3: for an object-net-capable root whose metadata chain holds the values
vs in order, splicing the marker succeeds and afterwards the root's chain is
exactly "NC" followed by vs: the head record's value is "NC" and every
pre-existing record is still reachable, unmutated and in its original order,
so the chain length grew by exactly one. -/
theorem splice_preserves_chain (s : NiStream) (r0 : Nat) (net : NiObjectNET)
    (vs : List String)
    (hr0 : s.roots[0]? = some r0)
    (hnet : s.getNET r0 = some net)
    (hchain : Chain s net.extra_data vs) :
    ∃ s' net', insert_no_collision_tag s = some s' ∧ s'.getNET r0 = some net' ∧
      net'.extra_data = some s.objects.length ∧
      Chain s' net'.extra_data ("NC" :: vs) := by
  obtain ⟨o, ho, hov⟩ := Option.bind_eq_some.mp hnet
  have hlt : r0 < s.objects.length := (List.getElem?_eq_some_iff.mp ho).1
  have hne : r0 ≠ s.objects.length := Nat.ne_of_lt hlt
  rw [insert_no_collision_tag_eq s r0 net hr0 hnet]
  set s1 : NiStream := { s with objects :=
    s.objects ++ [NiType.stringExtraData { value := "NC", next := none }] } with hs1
  set s2 : NiStream := s1.updateObj r0 (fun o => o.withNetExtra (some s.objects.length))
    with hs2
  set s3 : NiStream := s2.updateObj s.objects.length
    (fun _ => NiType.stringExtraData { value := "NC", next := net.extra_data }) with hs3
  have ho1 : s1.objects[r0]? = some o := by
    show (s.objects ++ _)[r0]? = some o
    rw [List.getElem?_append_left hlt]
    exact ho
  have ho2 : s2.objects[r0]? = some (o.withNetExtra (some s.objects.length)) :=
    updateObj_objects_self s1 r0 _ o ho1
  have ho3 : s3.objects[r0]? = some (o.withNetExtra (some s.objects.length)) := by
    rw [hs3, updateObj_objects_ne _ _ _ _ (Ne.symm hne)]
    exact ho2
  have hnet3 : s3.getNET r0 = some { net with extra_data := some s.objects.length } := by
    unfold NiStream.getNET
    rw [ho3]
    exact netView_withNetExtra o net _ hov
  have hed2 : s2.objects[s.objects.length]?
      = some (NiType.stringExtraData { value := "NC", next := none }) := by
    rw [hs2, updateObj_objects_ne _ _ _ _ hne]
    exact List.getElem?_concat_length _ _
  have hed3 : s3.objects[s.objects.length]?
      = some (NiType.stringExtraData { value := "NC", next := net.extra_data }) :=
    updateObj_objects_self s2 s.objects.length _ _ hed2
  have hpres : ∀ (k : Nat) (e : NiStringExtraData),
      s.objects[k]? = some (NiType.stringExtraData e) →
      s3.objects[k]? = some (NiType.stringExtraData e) := by
    intro k e hk
    have hklt : k < s.objects.length := (List.getElem?_eq_some_iff.mp hk).1
    have hkne : k ≠ s.objects.length := Nat.ne_of_lt hklt
    have hkr0 : k ≠ r0 := by
      intro hkr
      subst hkr
      rw [hk] at ho
      have : o = NiType.stringExtraData e := by injection ho.symm
      rw [this] at hov
      exact Option.noConfusion hov
    rw [hs3, updateObj_objects_ne _ _ _ _ (Ne.symm hkne),
      hs2, updateObj_objects_ne _ _ _ _ (Ne.symm hkr0)]
    show (s.objects ++ _)[k]? = some (NiType.stringExtraData e)
    rw [List.getElem?_append_left hklt]
    exact hk
  refine ⟨s3, { net with extra_data := some s.objects.length }, rfl, hnet3, rfl, ?_⟩
  show Chain s3 (some s.objects.length) ("NC" :: vs)
  exact Chain.cons hed3 (chain_mono s s3 hpres net.extra_data vs hchain)

/-- Witness for C3: a store whose root av-object already owns a one-record
chain holding "A"; after splicing, the chain is "NC" followed by "A". -/
theorem splice_preserves_chain_witness :
    ∃ s' net',
      insert_no_collision_tag
          ⟨[NiType.avObject { NiAVObject.default with
              net := { name := "x", extra_data := some 1 } },
            NiType.stringExtraData { value := "A", next := none }], [0]⟩
        = some s' ∧
      s'.getNET 0 = some net' ∧
      net'.extra_data = some (([NiType.avObject { NiAVObject.default with
          net := { name := "x", extra_data := some 1 } },
        NiType.stringExtraData { value := "A", next := none }] : List NiType).length) ∧
      Chain s' net'.extra_data ("NC" :: ["A"]) :=
  splice_preserves_chain
    ⟨[NiType.avObject { NiAVObject.default with
        net := { name := "x", extra_data := some 1 } },
      NiType.stringExtraData { value := "A", next := none }], [0]⟩
    0 { name := "x", extra_data := some 1 } ["A"] rfl rfl
    (Chain.cons rfl Chain.nil)

/-- C9: on a store that has just been normalized — the sole root link resolves
to a Node — the splicer cannot hit its error branch: inserting the marker
always succeeds. -/
theorem splicer_succeeds_on_node_root (s : NiStream) (r0 : Nat) (n : NiNode)
    (hr : s.roots = [r0]) (hobj : s.objects[r0]? = some (NiType.node n)) :
    (insert_no_collision_tag s).isSome := by
  have hr0 : s.roots[0]? = some r0 := by
    rw [hr]
    rfl
  have hnet : s.getNET r0 = some n.base.net := by
    unfold NiStream.getNET
    rw [hobj]
    rfl
  rw [insert_no_collision_tag_eq s r0 n.base.net hr0 hnet]
  rfl

/-- Witness for C9 at a concrete store whose sole root is a default node. -/
theorem splicer_succeeds_on_node_root_witness :
    (insert_no_collision_tag ⟨[NiType.node NiNode.default], [0]⟩).isSome :=
  splicer_succeeds_on_node_root ⟨[NiType.node NiNode.default], [0]⟩ 0 NiNode.default
    rfl rfl

end Pincushion
